import Mathlib

/-!
Verification of the crypto indicator service.

The embedding models `src/api/get-crypto-data.py` (Wilder RSI, per-asset
indicator records, the response envelope, and its per-asset error handling)
and `src/api/index.py` (the static page handler).  Prices are modelled as
rationals; the external effects (HTTP fetch, file read) are parameters of
the functions that consume their results.
-/

namespace Cryptos

/-- `d if d > 0 else 0` — the gain drawn from one delta in
`calculate_rsi_optimized`. -/
def gainOf (d : ℚ) : ℚ := if d > 0 then d else 0

/-- `-d if d < 0 else 0` — the loss drawn from one delta in
`calculate_rsi_optimized`. -/
def lossOf (d : ℚ) : ℚ := if d < 0 then -d else 0

/-- `[prices[i] - prices[i-1] for i in range(1, len(prices))]`. -/
def deltas (prices : List ℚ) : List ℚ :=
  (List.range' 1 (prices.length - 1)).map
    (fun i => prices.getD i 0 - prices.getD (i - 1) 0)

/-- The seed averages: `avg_gain = sum(gains) / period` and
`avg_loss = sum(losses) / period` over the first `period` deltas. -/
def seedAvgs (prices : List ℚ) (period : ℕ) : ℚ × ℚ :=
  ((((deltas prices).take period).map gainOf).sum / period,
   (((deltas prices).take period).map lossOf).sum / period)

/-- One iteration of the Wilder smoothing loop:
`avg_gain = (avg_gain * (period - 1) + gain) / period` and likewise for
the loss. -/
def wilderStep (period : ℕ) (avgs : ℚ × ℚ) (delta : ℚ) : ℚ × ℚ :=
  ((avgs.1 * ((period : ℚ) - 1) + gainOf delta) / period,
   (avgs.2 * ((period : ℚ) - 1) + lossOf delta) / period)

/-- The pair `(avg_gain, avg_loss)` after the smoothing loop has consumed
the deltas from index `period` to the end. -/
def finalAvgs (prices : List ℚ) (period : ℕ) : ℚ × ℚ :=
  ((deltas prices).drop period).foldl (wilderStep period) (seedAvgs prices period)

/-- `calculate_rsi_optimized(prices, period)` from
`src/api/get-crypto-data.py`. -/
def calculate_rsi_optimized (prices : List ℚ) (period : ℕ) : ℚ :=
  if prices.length < period + 1 then 0
  else if (finalAvgs prices period).2 = 0 then
    (if (finalAvgs prices period).1 > 0 then 100 else 50)
  else 100 - 100 / (1 + (finalAvgs prices period).1 / (finalAvgs prices period).2)

/-- Python's round-half-to-even on a rational, to the nearest integer. -/
def pyRound (x : ℚ) : ℤ :=
  if x - ⌊x⌋ < 1 / 2 then ⌊x⌋
  else if x - ⌊x⌋ > 1 / 2 then ⌊x⌋ + 1
  else if ⌊x⌋ % 2 = 0 then ⌊x⌋ else ⌊x⌋ + 1

/-- `round(x, 2)`: round half to even at two decimal places. -/
def round2 (x : ℚ) : ℚ := (pyRound (x * 100) : ℚ) / 100

/-- Python's `max` over a price list (`0` on the empty list, on which the
source would raise). -/
def listMax : List ℚ → ℚ
  | [] => 0
  | h :: t => t.foldl max h

/-- The per-asset success record `{price, peak, rsi, correction}`. -/
structure AssetResult where
  price : ℚ
  peak : ℚ
  rsi : ℚ
  correction : ℚ
deriving DecidableEq

/-- The indicator block of `get_real_time_data` for one asset: 90-day RSI,
peak, the last (real-time) price, and the correction percentage, each
rounded to two decimals. -/
def processPrices (prices : List ℚ) (period : ℕ) : AssetResult :=
  let rsi_90 := calculate_rsi_optimized prices period
  let peak_90 := listMax prices
  let current_price := prices.getLastD 0
  let correction_pct := (peak_90 - current_price) / peak_90 * 100
  { price := round2 current_price
    peak := round2 peak_90
    rsi := round2 rsi_90
    correction := round2 correction_pct }

/-- Configuration constant `DAYS = 90`. -/
def DAYS : ℕ := 90

/-- Configuration constant `COIN_IDS`, in source order. -/
def COIN_IDS : List (String × String) :=
  [("XRP", "ripple"), ("UNI", "uniswap"), ("SOL", "solana"), ("LINK", "chainlink")]

/-- Outcome of the fetch-and-parse phase for one asset, as seen by the
`try` block: a `requests` exception with its message, a body whose parse or
extraction raised (caught by the generic handler), or the extracted price
list. -/
inductive FetchResult where
  | failure (msg : String)
  | badBody (msg : String)
  | success (prices : List ℚ)

/-- One entry of the `data` mapping: a success record or an error record. -/
inductive AssetEntry where
  | ok (r : AssetResult)
  | err (msg : String)
deriving DecidableEq

/-- The indicator block as a fallible computation: Python raises
`ZeroDivisionError` (message `"float division by zero"`) on the correction
divide when the peak is zero; everything else in the block is total. -/
def processPricesE (prices : List ℚ) (period : ℕ) : Except String AssetResult :=
  if listMax prices = 0 then Except.error "float division by zero"
  else Except.ok (processPrices prices period)

/-- The per-asset body of the fetch loop in `get_real_time_data`, given the
asset's fetch outcome. -/
def handleAsset (outcome : FetchResult) : AssetEntry :=
  match outcome with
  | .failure msg => .err msg
  | .badBody msg => .err ("Processing error: " ++ msg)
  | .success prices =>
    if prices = [] then .err "No historical price data."
    else
      match processPricesE prices DAYS with
      | .ok r => .ok r
      | .error m => .err ("Processing error: " ++ m)

/-- The response of `get_real_time_data`: status code, the `data` mapping
in configured asset order, the constant sentiment, and the status field. -/
structure LambdaResponse where
  statusCode : ℕ
  data : List (String × AssetEntry)
  sentiment : ℤ
  status : String

/-- `get_real_time_data`, abstracted over the per-coin fetch outcome. -/
def get_real_time_data (fetch : String → FetchResult) : LambdaResponse :=
  { statusCode := 200
    data := COIN_IDS.map (fun p => (p.1, handleAsset (fetch p.2)))
    sentiment := 30
    status := "success" }

/-- The response of the static page handler in `src/api/index.py`. -/
structure HttpResponse where
  status : ℕ
  contentType : String
  cacheControl : Option String
  body : String
deriving DecidableEq

/-- `handler.do_GET` from `src/api/index.py`, abstracted over the result of
reading the HTML file. -/
def do_GET (readResult : Except String String) : HttpResponse :=
  match readResult with
  | .ok html =>
    { status := 200
      contentType := "text/html"
      cacheControl := some "no-cache, no-store, must-revalidate"
      body := html }
  | .error e =>
    { status := 500
      contentType := "text/plain"
      cacheControl := none
      body := "Error: " ++ e }

/-! Spec-side restatement of the RSI recipe, written after the wording of
the specification (index-defined deltas, positive parts as `max`): used to
compare the code's computation against the spec's. -/

/-- The spec's deltas: `delta[i] = prices[i] - prices[i-1]` for `i` in
`1..len(prices)-1`, reindexed by `j = i - 1`. -/
def specDeltas (prices : List ℚ) : List ℚ :=
  (List.range (prices.length - 1)).map
    (fun j => prices.getD (j + 1) 0 - prices.getD j 0)

/-- The spec's seed: arithmetic means, over the first `period` deltas, of
the positive parts and of the negated negative parts. -/
def specSeed (prices : List ℚ) (period : ℕ) : ℚ × ℚ :=
  ((((specDeltas prices).take period).map (fun d => max d 0)).sum / period,
   (((specDeltas prices).take period).map (fun d => max (-d) 0)).sum / period)

/-- The spec's incremental update for one subsequent delta. -/
def specStep (period : ℕ) (avgs : ℚ × ℚ) (d : ℚ) : ℚ × ℚ :=
  ((avgs.1 * ((period : ℚ) - 1) + max d 0) / period,
   (avgs.2 * ((period : ℚ) - 1) + max (-d) 0) / period)

/-- The spec's final smoothed averages, after every subsequent delta has
been folded in. -/
def specFinalAvgs (prices : List ℚ) (period : ℕ) : ℚ × ℚ :=
  ((specDeltas prices).drop period).foldl (specStep period) (specSeed prices period)

/-! Helper lemmas. -/

lemma gainOf_nonneg (d : ℚ) : 0 ≤ gainOf d := by
  unfold gainOf; split <;> linarith

lemma lossOf_nonneg (d : ℚ) : 0 ≤ lossOf d := by
  unfold lossOf; split <;> linarith

lemma gainOf_eq_max (d : ℚ) : gainOf d = max d 0 := by
  unfold gainOf; rcases lt_or_le 0 d with h | h
  · rw [if_pos h, max_eq_left h.le]
  · rw [if_neg (not_lt.mpr h), max_eq_right h]

lemma lossOf_eq_max (d : ℚ) : lossOf d = max (-d) 0 := by
  unfold lossOf; rcases lt_or_le d 0 with h | h
  · rw [if_pos h, max_eq_left (by linarith)]
  · rw [if_neg (not_lt.mpr h), max_eq_right (by linarith)]

lemma gainOf_of_nonpos {d : ℚ} (h : d ≤ 0) : gainOf d = 0 := by
  unfold gainOf; rw [if_neg (not_lt.mpr h)]

lemma lossOf_of_neg {d : ℚ} (h : d < 0) : lossOf d = -d := by
  unfold lossOf; rw [if_pos h]

lemma deltas_length (prices : List ℚ) : (deltas prices).length = prices.length - 1 := by
  simp [deltas]

lemma mem_deltas {prices : List ℚ} {d : ℚ} (hd : d ∈ deltas prices) :
    ∃ i, 1 ≤ i ∧ i < prices.length ∧ d = prices.getD i 0 - prices.getD (i - 1) 0 := by
  unfold deltas at hd
  obtain ⟨i, hi, rfl⟩ := List.mem_map.mp hd
  rw [List.mem_range'_1] at hi
  exact ⟨i, hi.1, by omega, rfl⟩

/-- A predicate preserved by every step of a fold holds of the result. -/
lemma foldl_preserves {α β : Type} {P : β → Prop} (f : β → α → β) :
    ∀ (l : List α) (init : β), P init →
      (∀ s a, a ∈ l → P s → P (f s a)) → P (l.foldl f init)
  | [], _, h, _ => h
  | a :: l, b, h, hstep =>
    foldl_preserves f l (f b a) (hstep b a (List.mem_cons_self a l) h)
      (fun s c hc hs => hstep s c (List.mem_cons_of_mem a hc) hs)

lemma seedAvgs_nonneg (prices : List ℚ) (period : ℕ) :
    0 ≤ (seedAvgs prices period).1 ∧ 0 ≤ (seedAvgs prices period).2 := by
  unfold seedAvgs
  constructor <;>
    exact div_nonneg
      (List.sum_nonneg (by
        intro x hx
        obtain ⟨d, _, rfl⟩ := List.mem_map.mp hx
        first
        | exact gainOf_nonneg d
        | exact lossOf_nonneg d))
      (by positivity)

lemma wilderStep_nonneg {period : ℕ} (hp : 1 ≤ period) {s : ℚ × ℚ} (d : ℚ)
    (h : 0 ≤ s.1 ∧ 0 ≤ s.2) :
    0 ≤ (wilderStep period s d).1 ∧ 0 ≤ (wilderStep period s d).2 := by
  have h1 : (0 : ℚ) ≤ (period : ℚ) - 1 := by
    have : (1 : ℚ) ≤ (period : ℚ) := by exact_mod_cast hp
    linarith
  have h2 : (0 : ℚ) ≤ (period : ℚ) := by positivity
  unfold wilderStep
  exact ⟨div_nonneg (by nlinarith [gainOf_nonneg d, h.1]) h2,
         div_nonneg (by nlinarith [lossOf_nonneg d, h.2]) h2⟩

lemma finalAvgs_nonneg (prices : List ℚ) {period : ℕ} (hp : 1 ≤ period) :
    0 ≤ (finalAvgs prices period).1 ∧ 0 ≤ (finalAvgs prices period).2 := by
  unfold finalAvgs
  exact foldl_preserves (P := fun s => 0 ≤ s.1 ∧ 0 ≤ s.2) (wilderStep period) _ _
    (seedAvgs_nonneg prices period) (fun s a _ hs => wilderStep_nonneg hp a hs)

lemma foldl_max_mem (a : ℚ) : ∀ t : List ℚ, t.foldl max a ∈ a :: t
  | [] => List.mem_cons_self a []
  | h :: t => by
    have ih := foldl_max_mem (max a h) t
    rcases List.mem_cons.mp ih with he | ht
    · rcases max_choice a h with hc | hc <;> rw [List.foldl_cons, he, hc]
      · exact List.mem_cons_self _ _
      · exact List.mem_cons_of_mem _ (List.mem_cons_self _ _)
    · exact List.mem_cons_of_mem _ (List.mem_cons_of_mem _ ht)

lemma le_foldl_max (a : ℚ) : ∀ t : List ℚ, a ≤ t.foldl max a
  | [] => le_refl a
  | h :: t => le_trans (le_max_left a h) (le_foldl_max (max a h) t)

lemma mem_le_foldl_max (a x : ℚ) : ∀ t : List ℚ, x ∈ t → x ≤ t.foldl max a
  | h :: t, hx => by
    rcases List.mem_cons.mp hx with rfl | hxt
    · exact le_trans (le_max_right a x) (le_foldl_max (max a x) t)
    · exact mem_le_foldl_max (max a h) x t hxt

lemma listMax_mem {l : List ℚ} (h : l ≠ []) : listMax l ∈ l := by
  cases l with
  | nil => exact absurd rfl h
  | cons a t => exact foldl_max_mem a t

lemma le_listMax {l : List ℚ} {x : ℚ} (h : x ∈ l) : x ≤ listMax l := by
  cases l with
  | nil => cases h
  | cons a t =>
    rcases List.mem_cons.mp h with rfl | ht
    · exact le_foldl_max x t
    · exact mem_le_foldl_max a x t ht

lemma finalAvgs_flat {prices : List ℚ} (period : ℕ)
    (h : ∀ d ∈ deltas prices, d = 0) : finalAvgs prices period = (0, 0) := by
  have hseed : seedAvgs prices period = (0, 0) := by
    unfold seedAvgs
    have hg : ((((deltas prices).take period).map gainOf)).sum = 0 :=
      List.sum_eq_zero (by
        intro x hx
        obtain ⟨d, hd, rfl⟩ := List.mem_map.mp hx
        rw [h d (List.mem_of_mem_take hd)]
        simp [gainOf])
    have hl : ((((deltas prices).take period).map lossOf)).sum = 0 :=
      List.sum_eq_zero (by
        intro x hx
        obtain ⟨d, hd, rfl⟩ := List.mem_map.mp hx
        rw [h d (List.mem_of_mem_take hd)]
        simp [lossOf])
    rw [hg, hl, zero_div]
  unfold finalAvgs
  rw [hseed]
  exact foldl_preserves (P := fun s => s = (0, 0)) (wilderStep period) _ _ rfl
    (by
      intro s a ha hs
      rw [hs]
      have ha0 : a = 0 := h a (List.mem_of_mem_drop ha)
      unfold wilderStep
      rw [ha0]
      simp [gainOf, lossOf])

lemma finalAvgs_strict_decrease {prices : List ℚ} {period : ℕ}
    (hp : 1 ≤ period) (hlen : period + 1 ≤ prices.length)
    (hneg : ∀ d ∈ deltas prices, d < 0) :
    (finalAvgs prices period).1 = 0 ∧ 0 < (finalAvgs prices period).2 := by
  have hperiod : (0 : ℚ) < (period : ℚ) := by positivity
  have hp1 : (0 : ℚ) ≤ (period : ℚ) - 1 := by
    have : (1 : ℚ) ≤ (period : ℚ) := by exact_mod_cast hp
    linarith
  have hseed1 : (seedAvgs prices period).1 = 0 := by
    unfold seedAvgs
    have : ((((deltas prices).take period).map gainOf)).sum = 0 :=
      List.sum_eq_zero (by
        intro x hx
        obtain ⟨d, hd, rfl⟩ := List.mem_map.mp hx
        exact gainOf_of_nonpos (hneg d (List.mem_of_mem_take hd)).le)
    rw [this, zero_div]
  have htake_ne : ((deltas prices).take period).map lossOf ≠ [] := by
    rw [← List.length_pos]
    rw [List.length_map, List.length_take, deltas_length]
    omega
  have hseed2 : 0 < (seedAvgs prices period).2 := by
    unfold seedAvgs
    refine div_pos (List.sum_pos _ ?_ htake_ne) hperiod
    intro x hx
    obtain ⟨d, hd, rfl⟩ := List.mem_map.mp hx
    have hdneg := hneg d (List.mem_of_mem_take hd)
    rw [lossOf_of_neg hdneg]
    linarith
  unfold finalAvgs
  refine foldl_preserves (P := fun s => s.1 = 0 ∧ 0 < s.2) (wilderStep period) _ _
    ⟨hseed1, hseed2⟩ ?_
  intro s a ha hs
  have haneg : a < 0 := hneg a (List.mem_of_mem_drop ha)
  unfold wilderStep
  constructor
  · rw [hs.1, gainOf_of_nonpos haneg.le, zero_mul, zero_add, zero_div]
  · refine div_pos ?_ hperiod
    have := hs.2
    rw [lossOf_of_neg haneg]
    nlinarith

lemma deltas_eq_specDeltas (prices : List ℚ) : deltas prices = specDeltas prices := by
  unfold deltas specDeltas
  rw [List.range'_eq_map_range, List.map_map]
  refine List.map_congr_left ?_
  intro j _
  simp only [Function.comp_apply]
  rw [Nat.add_comm 1 j, Nat.add_sub_cancel]

lemma wilderStep_eq_specStep (period : ℕ) : wilderStep period = specStep period := by
  funext s d
  unfold wilderStep specStep
  rw [gainOf_eq_max, lossOf_eq_max]

lemma finalAvgs_eq_specFinalAvgs (prices : List ℚ) (period : ℕ) :
    finalAvgs prices period = specFinalAvgs prices period := by
  have hseed : seedAvgs prices period = specSeed prices period := by
    unfold seedAvgs specSeed
    rw [deltas_eq_specDeltas]
    have hg : gainOf = fun d : ℚ => max d 0 := funext gainOf_eq_max
    have hl : lossOf = fun d : ℚ => max (-d) 0 := funext lossOf_eq_max
    rw [hg, hl]
  unfold finalAvgs specFinalAvgs
  rw [deltas_eq_specDeltas, wilderStep_eq_specStep, hseed]

lemma pyRound_intCast (m : ℤ) : pyRound (m : ℚ) = m := by
  unfold pyRound
  rw [Int.floor_intCast, sub_self, if_pos (by norm_num)]

lemma round2_intCast (m : ℤ) : round2 (m : ℚ) = (m : ℚ) := by
  unfold round2
  have : ((m : ℚ)) * 100 = ((m * 100 : ℤ) : ℚ) := by push_cast; ring
  rw [this, pyRound_intCast]
  push_cast
  ring

/-! Claim theorems. -/

/-- Claim C1: for every price list with at least `period + 1` elements and
every `period ≥ 1`, when the spec's final smoothed loss is nonzero,
`calculate_rsi_optimized` computes RSI exactly by the spec's recipe:
index-defined deltas, seed averages that are the arithmetic means of the
positive parts and the negated negative parts of the first `period`
deltas, Wilder's incremental update for each subsequent delta, and
finally `100 - 100/(1 + avgGain/avgLoss)`. -/
theorem rsi_matches_spec_recipe (prices : List ℚ) (period : ℕ)
    (_hp : 1 ≤ period) (hlen : period + 1 ≤ prices.length)
    (hal : (specFinalAvgs prices period).2 ≠ 0) :
    calculate_rsi_optimized prices period =
      100 - 100 / (1 + (specFinalAvgs prices period).1 / (specFinalAvgs prices period).2) := by
  have hfe := finalAvgs_eq_specFinalAvgs prices period
  unfold calculate_rsi_optimized
  rw [if_neg (by omega), hfe, if_neg hal]

/-- Witness for C1 at `prices = [3, 1]`, `period = 1`. -/
theorem rsi_matches_spec_recipe_witness :
    calculate_rsi_optimized [3, 1] 1 =
      100 - 100 / (1 + (specFinalAvgs [3, 1] 1).1 / (specFinalAvgs [3, 1] 1).2) :=
  rsi_matches_spec_recipe [3, 1] 1 (by decide) (by decide)
    (by
      have h1 : specDeltas [(3 : ℚ), 1] = [-2] := by
        simp [specDeltas, List.range_succ]
        norm_num
      have h2 : specFinalAvgs [(3 : ℚ), 1] 1 = (0, 2) := by
        simp [specFinalAvgs, specSeed, h1, specStep, max_def]
      rw [h2]
      norm_num)

/-- Claim C2: with at least `period + 1` prices, if the final smoothed loss
is zero the function returns `100` when the final gain is positive and `50`
otherwise; in particular a series whose deltas are all zero returns `50`. -/
theorem rsi_zero_loss_branch (prices : List ℚ) (period : ℕ)
    (_hp : 1 ≤ period) (hlen : period + 1 ≤ prices.length) :
    ((finalAvgs prices period).2 = 0 →
      calculate_rsi_optimized prices period =
        if 0 < (finalAvgs prices period).1 then 100 else 50)
    ∧ ((∀ d ∈ deltas prices, d = 0) → calculate_rsi_optimized prices period = 50) := by
  constructor
  · intro h0
    unfold calculate_rsi_optimized
    rw [if_neg (by omega), if_pos h0]
  · intro hflat
    have hf := finalAvgs_flat period hflat
    unfold calculate_rsi_optimized
    rw [if_neg (by omega), hf]
    norm_num

/-- Witness for C2 at the flat series `[1, 1]`, `period = 1`. -/
theorem rsi_zero_loss_branch_witness : calculate_rsi_optimized [1, 1] 1 = 50 :=
  (rsi_zero_loss_branch [1, 1] 1 (by decide) (by decide)).2
    (by
      have h : deltas [(1 : ℚ), 1] = [0] := by simp [deltas, List.range']
      intro d hd
      rw [h] at hd
      simpa using hd)

/-- Claim C3: with fewer than `period + 1` prices the function returns the
sentinel `0` (total, no failure). -/
theorem rsi_not_enough_data (prices : List ℚ) (period : ℕ)
    (h : prices.length < period + 1) : calculate_rsi_optimized prices period = 0 := by
  unfold calculate_rsi_optimized
  rw [if_pos h]

/-- Witness for C3 at `prices = [1]`, `period = 1`. -/
theorem rsi_not_enough_data_witness : calculate_rsi_optimized [1] 1 = 0 :=
  rsi_not_enough_data [1] 1 (by decide)

/-- Claim C4: a strictly decreasing price list with at least `period + 1`
elements yields RSI exactly `0`. -/
theorem rsi_strictly_decreasing (prices : List ℚ) (period : ℕ)
    (hp : 1 ≤ period) (hlen : period + 1 ≤ prices.length)
    (hdec : List.Chain' (fun a b => b < a) prices) :
    calculate_rsi_optimized prices period = 0 := by
  have hneg : ∀ d ∈ deltas prices, d < 0 := by
    intro d hd
    obtain ⟨i, h1, h2, rfl⟩ := mem_deltas hd
    obtain ⟨j, rfl⟩ : ∃ j, i = j + 1 := ⟨i - 1, by omega⟩
    have hc := List.chain'_iff_get.mp hdec j (by omega)
    rw [List.get_eq_getElem, List.get_eq_getElem] at hc
    rw [Nat.add_sub_cancel, List.getD_eq_getElem _ _ h2,
      List.getD_eq_getElem _ _ (by omega)]
    simpa using sub_neg.mpr hc
  obtain ⟨hag, hal⟩ := finalAvgs_strict_decrease hp hlen hneg
  unfold calculate_rsi_optimized
  rw [if_neg (by omega), if_neg (ne_of_gt hal), hag]
  norm_num

/-- Witness for C4 at `prices = [2, 1]`, `period = 1`. -/
theorem rsi_strictly_decreasing_witness : calculate_rsi_optimized [2, 1] 1 = 0 :=
  rsi_strictly_decreasing [2, 1] 1 (by decide) (by decide)
    (by
      rw [List.chain'_cons]
      exact ⟨by norm_num, List.chain'_singleton 1⟩)

/-- Claim C10: for every price list and every `period ≥ 1` the returned
value lies in `[0, 100]`. -/
theorem rsi_within_bounds (prices : List ℚ) (period : ℕ) (hp : 1 ≤ period) :
    0 ≤ calculate_rsi_optimized prices period ∧
      calculate_rsi_optimized prices period ≤ 100 := by
  unfold calculate_rsi_optimized
  split
  · norm_num
  · split
    · split <;> norm_num
    · rename_i hal
      obtain ⟨hg, hl⟩ := finalAvgs_nonneg prices hp
      have hrs : 0 ≤ (finalAvgs prices period).1 / (finalAvgs prices period).2 :=
        div_nonneg hg hl
      have h1 : 100 / (1 + (finalAvgs prices period).1 / (finalAvgs prices period).2) ≤ 100 :=
        div_le_self (by norm_num) (by linarith)
      have h2 : 0 < 100 / (1 + (finalAvgs prices period).1 / (finalAvgs prices period).2) :=
        div_pos (by norm_num) (by linarith)
      constructor <;> linarith

/-- Witness for C10 at `prices = [1]`, `period = 1`. -/
theorem rsi_within_bounds_witness :
    0 ≤ calculate_rsi_optimized [1] 1 ∧ calculate_rsi_optimized [1] 1 ≤ 100 :=
  rsi_within_bounds [1] 1 (by decide)

/-- Claim C5: for a non-empty price list, the success record carries the
rounded maximum of the series as `peak`, the rounded last element as
`price`, the rounded RSI, and the rounded `(peak - price) / peak * 100` as
`correction`; `listMax` really is the maximum of the series. -/
theorem asset_record_fields (prices : List ℚ) (h : prices ≠ []) :
    (listMax prices ∈ prices ∧ ∀ x ∈ prices, x ≤ listMax prices)
    ∧ (processPrices prices DAYS).peak = round2 (listMax prices)
    ∧ (processPrices prices DAYS).price = round2 (prices.getLastD 0)
    ∧ (processPrices prices DAYS).rsi = round2 (calculate_rsi_optimized prices DAYS)
    ∧ (processPrices prices DAYS).correction =
        round2 ((listMax prices - prices.getLastD 0) / listMax prices * 100) :=
  ⟨⟨listMax_mem h, fun _ hx => le_listMax hx⟩, rfl, rfl, rfl, rfl⟩

/-- Witness for C5 at `prices = [1]`. -/
theorem asset_record_fields_witness :
    (listMax [(1 : ℚ)] ∈ [(1 : ℚ)] ∧ ∀ x ∈ [(1 : ℚ)], x ≤ listMax [(1 : ℚ)])
    ∧ (processPrices [(1 : ℚ)] DAYS).peak = round2 (listMax [(1 : ℚ)])
    ∧ (processPrices [(1 : ℚ)] DAYS).price = round2 (([(1 : ℚ)]).getLastD 0)
    ∧ (processPrices [(1 : ℚ)] DAYS).rsi =
        round2 (calculate_rsi_optimized [(1 : ℚ)] DAYS)
    ∧ (processPrices [(1 : ℚ)] DAYS).correction =
        round2 ((listMax [(1 : ℚ)] - ([(1 : ℚ)]).getLastD 0) / listMax [(1 : ℚ)] * 100) :=
  asset_record_fields [(1 : ℚ)] (by simp)

/-- The end-to-end test list `[100, 101, ..., 190]` of 91 elements. -/
def ascPrices : List ℚ := (List.range 91).map (fun i : ℕ => 100 + (i : ℚ))

lemma ascPrices_length : ascPrices.length = 91 := by simp [ascPrices]

lemma ascPrices_getD {j : ℕ} (h : j < 91) : ascPrices.getD j 0 = 100 + j := by
  rw [List.getD_eq_getElem _ _ (by rw [ascPrices_length]; exact h)]
  unfold ascPrices
  rw [List.getElem_map, List.getElem_range]

lemma deltas_ascPrices : ∀ d ∈ deltas ascPrices, d = 1 := by
  intro d hd
  obtain ⟨i, h1, h2, rfl⟩ := mem_deltas hd
  rw [ascPrices_length] at h2
  obtain ⟨j, rfl⟩ : ∃ j, i = j + 1 := ⟨i - 1, by omega⟩
  rw [Nat.add_sub_cancel, ascPrices_getD h2, ascPrices_getD (by omega)]
  push_cast
  ring

lemma finalAvgs_ascPrices : finalAvgs ascPrices 90 = (1, 0) := by
  have hlen : (deltas ascPrices).length = 90 := by
    rw [deltas_length, ascPrices_length]
  have hseed : seedAvgs ascPrices 90 = (1, 0) := by
    unfold seedAvgs
    have htake : (deltas ascPrices).take 90 = deltas ascPrices :=
      List.take_of_length_le (by rw [hlen])
    rw [htake]
    have hg : ((deltas ascPrices).map gainOf).sum = 90 := by
      have hone : ∀ x ∈ (deltas ascPrices).map gainOf, x = 1 := by
        intro x hx
        obtain ⟨d, hd, rfl⟩ := List.mem_map.mp hx
        rw [deltas_ascPrices d hd]
        norm_num [gainOf]
      rw [List.sum_eq_card_nsmul _ 1 hone, List.length_map, hlen]
      norm_num
    have hl : ((deltas ascPrices).map lossOf).sum = 0 :=
      List.sum_eq_zero (by
        intro x hx
        obtain ⟨d, hd, rfl⟩ := List.mem_map.mp hx
        rw [deltas_ascPrices d hd]
        norm_num [lossOf])
    rw [hg, hl, zero_div]
    norm_num [Prod.ext_iff]
  unfold finalAvgs
  rw [List.drop_eq_nil_of_le (by rw [hlen]), List.foldl_nil, hseed]

lemma rsi_ascPrices : calculate_rsi_optimized ascPrices 90 = 100 := by
  unfold calculate_rsi_optimized
  rw [if_neg (by rw [ascPrices_length]; omega), finalAvgs_ascPrices]
  norm_num

lemma listMax_ascPrices : listMax ascPrices = 190 := by
  have hne : ascPrices ≠ [] := by
    rw [← List.length_pos, ascPrices_length]
    omega
  refine le_antisymm ?_ (le_listMax ?_)
  · have him := listMax_mem hne
    simp only [ascPrices] at him
    obtain ⟨i, hi, he⟩ := List.mem_map.mp him
    rw [List.mem_range] at hi
    rw [show listMax ascPrices = listMax ((List.range 91).map (fun i : ℕ => 100 + (i : ℚ)))
      from rfl, ← he]
    have hc : (i : ℚ) ≤ 90 := by exact_mod_cast Nat.lt_succ_iff.mp hi
    linarith
  · simp only [ascPrices]
    exact List.mem_map.mpr ⟨90, List.mem_range.mpr (by omega), by norm_num⟩

lemma last_ascPrices : ascPrices.getLastD 0 = 190 := by
  rw [List.getLastD_eq_getLast?, List.getLast?_eq_getElem?, ascPrices_length]
  rw [show (91 - 1 : ℕ) = 90 from rfl,
    List.getElem?_eq_getElem (by rw [ascPrices_length]; omega)]
  simp only [Option.getD_some]
  unfold ascPrices
  rw [List.getElem_map, List.getElem_range]
  norm_num

/-- Claim C6: on the 91-element ascending list `[100, ..., 190]` with
`period = 90` the engine returns `price = 190`, `peak = 190`, `rsi = 100`
and `correction = 0`. -/
theorem engine_ascending_91 : processPrices ascPrices DAYS = ⟨190, 190, 100, 0⟩ := by
  simp only [processPrices, DAYS]
  rw [listMax_ascPrices, last_ascPrices, rsi_ascPrices]
  norm_num [AssetResult.mk.injEq, round2, pyRound]

/-- A fetch outcome in which every request times out. -/
def fetchTimeout : String → FetchResult :=
  fun _ => FetchResult.failure "HTTPSConnectionPool: Read timed out."

/-- Claim C7: for every combination of per-asset outcomes the envelope has
status code 200, status `"success"` and sentiment 30, and the entry
recorded for an asset depends only on that asset's own outcome: two fetch
functions agreeing on an asset's coin id yield the same entry at that
asset's position. -/
theorem envelope_and_isolation (f g : String → FetchResult) (i : ℕ)
    (h : i < COIN_IDS.length)
    (hfg : f (COIN_IDS.get ⟨i, h⟩).2 = g (COIN_IDS.get ⟨i, h⟩).2) :
    (get_real_time_data f).statusCode = 200 ∧
    (get_real_time_data f).status = "success" ∧
    (get_real_time_data f).sentiment = 30 ∧
    (get_real_time_data f).data.length = COIN_IDS.length ∧
    (get_real_time_data f).data[i]? = (get_real_time_data g).data[i]? := by
  refine ⟨rfl, rfl, rfl, by simp [get_real_time_data], ?_⟩
  simp only [get_real_time_data]
  rw [List.getElem?_map, List.getElem?_map, List.getElem?_eq_getElem h]
  rw [List.get_eq_getElem] at hfg
  simp only [Option.map_some', hfg]

/-- Witness for C7: all four assets time out, `i = 0`. -/
theorem envelope_and_isolation_witness :
    (get_real_time_data fetchTimeout).statusCode = 200 ∧
    (get_real_time_data fetchTimeout).status = "success" ∧
    (get_real_time_data fetchTimeout).sentiment = 30 ∧
    (get_real_time_data fetchTimeout).data.length = COIN_IDS.length ∧
    (get_real_time_data fetchTimeout).data[0]? = (get_real_time_data fetchTimeout).data[0]? :=
  envelope_and_isolation fetchTimeout fetchTimeout 0 (by decide) rfl

/-- Claim C8: the per-asset handler is total (never propagates) and
records exactly one of the three error forms of the source, or a success
record: the transport failure's own message, the fixed
`"No historical price data."` for an empty price list, or
`"Processing error: "` followed by the exception's message. -/
theorem handleAsset_error_taxonomy (o : FetchResult) :
    (∃ m, o = FetchResult.failure m ∧ handleAsset o = AssetEntry.err m) ∨
    (∃ m, o = FetchResult.badBody m ∧
      handleAsset o = AssetEntry.err ("Processing error: " ++ m)) ∨
    (o = FetchResult.success [] ∧
      handleAsset o = AssetEntry.err "No historical price data.") ∨
    (∃ ps m, o = FetchResult.success ps ∧ ps ≠ [] ∧
      processPricesE ps DAYS = Except.error m ∧
      handleAsset o = AssetEntry.err ("Processing error: " ++ m)) ∨
    (∃ ps r, o = FetchResult.success ps ∧ ps ≠ [] ∧
      processPricesE ps DAYS = Except.ok r ∧ handleAsset o = AssetEntry.ok r) := by
  cases o with
  | failure m => exact Or.inl ⟨m, rfl, rfl⟩
  | badBody m => exact Or.inr (Or.inl ⟨m, rfl, rfl⟩)
  | success ps =>
    by_cases hps : ps = []
    · subst hps
      exact Or.inr (Or.inr (Or.inl ⟨rfl, rfl⟩))
    · cases he : processPricesE ps DAYS with
      | error m =>
        refine Or.inr (Or.inr (Or.inr (Or.inl ⟨ps, m, rfl, hps, he, ?_⟩)))
        simp only [handleAsset, if_neg hps, he]
      | ok r =>
        refine Or.inr (Or.inr (Or.inr (Or.inr ⟨ps, r, rfl, hps, he, ?_⟩)))
        simp only [handleAsset, if_neg hps, he]

/-- Counterexample for C9 as stated: on a failed read with message
`"boom"` the handler's body is `"Error: boom"`, not the bare message. -/
theorem do_GET_error_body_prefixed :
    (do_GET (Except.error "boom")).status = 500 ∧
    (do_GET (Except.error "boom")).body ≠ "boom" := by
  simp [do_GET]

/-- Claim C9 (amended): a successful read yields status 200,
`text/html`, the no-cache header, and the file content as body; a failed
read yields status 500, `text/plain`, and body `"Error: "` followed by
the error's message text. -/
theorem do_GET_characterization :
    (∀ html, do_GET (Except.ok html) =
      ⟨200, "text/html", some "no-cache, no-store, must-revalidate", html⟩) ∧
    (∀ e, do_GET (Except.error e) = ⟨500, "text/plain", none, "Error: " ++ e⟩) :=
  ⟨fun _ => rfl, fun _ => rfl⟩

end Cryptos
